import Mathlib

/-!
Verification of the Tappi-share chunked-transfer protocol, negotiator,
rendezvous server and file-manager bookkeeping against a shallow Lean
embedding of the Rust sources (`src/client/packet.rs`,
`src/client/payload.rs`, `src/client/message.rs`,
`src/client/signaling/negotiator.rs`, `src/server/signal.rs`,
`src/server/types.rs`, `src/app/file_manager.rs`).

Bytes are modelled as `Nat` (values < 256 where it matters), byte strings
as `List Nat`, Rust `f64` arithmetic as exact `ℚ` arithmetic, and
filesystem / channel effects as explicit effect lists.
-/

namespace Tappi

/-! ## MessagePack value model (`rmpp` crate as used by the codec)

The codec of `payload.rs` builds a `MsgPackValue::FixArray` of four
entries (`U32`, `Bool`, `Bool`, `Bin32`) and serialises it with
`rmpp::encode::pack`; `message.rs` deserialises with `rmpp::unpack` and
then destructures with `Packet::new`.  We model the MessagePack wire
format for exactly these value families (the only ones the protocol
emits): `0xce` + 4 big-endian bytes for `U32`, `0xc2`/`0xc3` for `Bool`,
`0xc6` + 4 big-endian length bytes + payload for `Bin32`, and
`0x90+n` for a fixed array of `n ≤ 15` elements (here scalar elements,
which covers every frame of this protocol, whose nesting depth is 2). -/

inductive MsgPackValue where
  | u32 (n : Nat)
  | bool (b : Bool)
  | bin32 (data : List Nat)
  | fixArray (items : List MsgPackValue)

/-- Big-endian 4-byte encoding of a `u32`. -/
def be4 (n : Nat) : List Nat :=
  [n / 16777216 % 256, n / 65536 % 256, n / 256 % 256, n % 256]

/-- Read 4 big-endian bytes. -/
def readBe4 : List Nat → Option (Nat × List Nat)
  | a :: b :: c :: d :: rest => some (((a * 256 + b) * 256 + c) * 256 + d, rest)
  | _ => none

/-- Parse one scalar MessagePack value (the element kinds the codec uses). -/
def parseScalar : List Nat → Option (MsgPackValue × List Nat)
  | 0xce :: rest =>
    match readBe4 rest with
    | some (n, r) => some (.u32 n, r)
    | none => none
  | 0xc2 :: rest => some (.bool false, rest)
  | 0xc3 :: rest => some (.bool true, rest)
  | 0xc6 :: rest =>
    match readBe4 rest with
    | some (len, r) =>
      if len ≤ r.length then some (.bin32 (r.take len), r.drop len) else none
    | none => none
  | _ => none

/-- Parse `n` consecutive scalar values. -/
def parseScalars : Nat → List Nat → Option (List MsgPackValue × List Nat)
  | 0, input => some ([], input)
  | n + 1, input =>
    match parseScalar input with
    | some (v, r) =>
      match parseScalars n r with
      | some (vs, r2) => some (v :: vs, r2)
      | none => none
    | none => none

/-- Parse a top-level MessagePack entry: either a fixed array of scalars
or a scalar. -/
def parseEntry (input : List Nat) : Option (MsgPackValue × List Nat) :=
  match input with
  | t :: rest =>
    if 0x90 ≤ t ∧ t ≤ 0x9f then
      match parseScalars (t - 0x90) rest with
      | some (vs, r) => some (.fixArray vs, r)
      | none => none
    else parseScalar input
  | [] => none

/-- `rmpp::unpack`: decode a whole binary frame to one MessagePack value. -/
def unpack (bs : List Nat) : Option MsgPackValue :=
  match parseEntry bs with
  | some (v, []) => some v
  | _ => none

/-- Byte emitted for a MessagePack boolean. -/
def boolByte (b : Bool) : Nat := if b then 0xc3 else 0xc2

/-- `payload.rs::pack`: serialise the 4-tuple
`[U32 id, Bool meta, Bool last, Bin32 chunk]` — fixarray header,
`u32` marker + 4 bytes, two boolean bytes, `bin32` marker + 4 length
bytes + payload (the source's own comment counts this 13-byte base). -/
def pack (id : Nat) (meta last : Bool) (chunk : List Nat) : List Nat :=
  0x94 :: ((0xce :: be4 id) ++
    [boolByte meta, boolByte last] ++
    (0xc6 :: (be4 chunk.length ++ chunk)))

/-! ## `packet.rs`: `Packet` and `Packet::new` -/

structure Packet where
  id : Nat
  meta : Bool
  last : Bool
  binary : List Nat
  deriving DecidableEq

/-- `packet.rs::get_vec`. -/
def getVec : MsgPackValue → Option (List MsgPackValue)
  | .fixArray a => some a
  | _ => none

/-- `packet.rs::get_u32`. -/
def getU32 : MsgPackValue → Option Nat
  | .u32 n => some n
  | _ => none

/-- `packet.rs::get_bool`. -/
def getBool : MsgPackValue → Option Bool
  | .bool b => some b
  | _ => none

/-- `packet.rs::get_bin32`. -/
def getBin32 : MsgPackValue → Option (List Nat)
  | .bin32 d => some d
  | _ => none

/-- Outcome of `Packet::new`: `ok` on success, `error` for the
`color_eyre` error returns of the field extractors, `panicked` for a
Rust index-out-of-bounds panic. -/
inductive NewResult where
  | ok (p : Packet)
  | error
  | panicked
  deriving DecidableEq

/-- `packet.rs::Packet::new`: destructure the decoded entry.  The Rust
code indexes `array[0] … array[3]` without a length check, so an array
with fewer than four elements panics at the first missing index; the
indexing for a later field only happens after the earlier extractors
succeeded (Rust evaluates the struct fields in source order). -/
def Packet.new (e : MsgPackValue) : NewResult :=
  match getVec e with
  | none => .error
  | some array =>
    match array.get? 0 with
    | none => .panicked
    | some e0 =>
      match getU32 e0 with
      | none => .error
      | some id =>
        match array.get? 1 with
        | none => .panicked
        | some e1 =>
          match getBool e1 with
          | none => .error
          | some m =>
            match array.get? 2 with
            | none => .panicked
            | some e2 =>
              match getBool e2 with
              | none => .error
              | some l =>
                match array.get? 3 with
                | none => .panicked
                | some e3 =>
                  match getBin32 e3 with
                  | none => .error
                  | some bin => .ok ⟨id, m, l, bin⟩

/-- `message.rs` handling of a binary frame: `rmpp::unpack` followed by
`Packet::new` (an `unpack` failure propagates as an error via `?`). -/
def packetFromBytes (bs : List Nat) : NewResult :=
  match unpack bs with
  | some v => Packet.new v
  | none => .error

/-! ## Framing codec lemmas -/

lemma readBe4_be4 (n : Nat) (rest : List Nat) (h : n < 4294967296) :
    readBe4 (be4 n ++ rest) = some (n, rest) := by
  simp only [be4, List.cons_append, List.nil_append, readBe4, Option.some.injEq,
    Prod.mk.injEq]
  exact ⟨by omega, trivial⟩

lemma parseScalar_u32 (n : Nat) (rest : List Nat) (h : n < 4294967296) :
    parseScalar (0xce :: (be4 n ++ rest)) = some (.u32 n, rest) := by
  simp only [parseScalar]
  rw [readBe4_be4 n rest h]

lemma parseScalar_boolByte (b : Bool) (rest : List Nat) :
    parseScalar (boolByte b :: rest) = some (.bool b, rest) := by
  cases b <;> rfl

lemma parseScalar_bin32 (d : List Nat) (h : d.length < 4294967296) :
    parseScalar (0xc6 :: (be4 d.length ++ d)) = some (.bin32 d, []) := by
  simp only [parseScalar]
  rw [readBe4_be4 d.length d h]
  simp

/-- C1: framing round trip with fixed overhead — for every `Packet` whose
payload keeps the frame within 65 535 bytes, decoding the encoded binary
frame yields the packet back, and the encoded frame is exactly 13 bytes
longer than the payload (u32 id marker + 4 bytes, two booleans, bin32
marker + 4 length bytes, fixarray header). -/
theorem c1_framing_round_trip (id : Nat) (m l : Bool) (chunk : List Nat)
    (hid : id < 4294967296) (hlen : chunk.length + 13 ≤ 65535) :
    packetFromBytes (pack id m l chunk) = .ok ⟨id, m, l, chunk⟩ ∧
      (pack id m l chunk).length = chunk.length + 13 := by
  have hcl : chunk.length < 4294967296 := by omega
  constructor
  · simp only [pack, packetFromBytes, unpack, parseEntry, List.cons_append,
      List.append_assoc, List.nil_append]
    simp only [show (0x90 ≤ 0x94 ∧ 0x94 ≤ 0x9f) = True by decide, if_true]
    simp only [show (0x94 - 0x90 : Nat) = 4 from rfl]
    simp only [parseScalars, parseScalar_u32 id _ hid, parseScalar_boolByte,
      parseScalar_bin32 chunk hcl, Option.bind_some]
    rfl
  · simp [pack, be4, boolByte]

/-- Witness for C1 at a concrete packet. -/
theorem c1_framing_round_trip_witness :
    packetFromBytes (pack 7 true false [1, 2, 3]) = .ok ⟨7, true, false, [1, 2, 3]⟩ ∧
      (pack 7 true false [1, 2, 3]).length = [1, 2, 3].length + 13 :=
  c1_framing_round_trip 7 true false [1, 2, 3] (by decide) (by decide)

/-- C6: frame-decoding totality fails — `Packet::new` indexes
`array[0] … array[3]` without a length check, so a decoded MessagePack
array with fewer than four elements panics instead of returning the
*MalformedFrame* error; a wrong-typed field does return the error. -/
theorem c6_short_array_panics :
    Packet.new (.fixArray []) = .panicked ∧
      Packet.new (.fixArray [.u32 1, .bool false]) = .panicked ∧
      Packet.new (.bool true) = .error ∧
      Packet.new (.fixArray [.bool true, .bool false, .bool false, .bin32 []]) = .error := by
  exact ⟨rfl, rfl, rfl, rfl⟩

/-! ## `payload.rs::send_meta_string` (metadata pass)

The loop slices `bytes[counter..counter + borrow_size]` where
`borrow_size = buffer_size.min(string_size)` is *not* reduced by
`counter`; a Rust slice whose end exceeds the string length panics.  A
run is therefore modelled as the list of packets handed to
`send_binary` before the loop ends, together with how it ended. -/

inductive TermStatus where
  | finished
  | panicked
  | diverged
  deriving DecidableEq

structure SendOutcome where
  sent : List Packet
  status : TermStatus
  deriving DecidableEq

/-- One pass of the `send_meta_string` loop from a given `counter`.
`diverged` marks the loop spinning forever when `borrow_size = 0`
(possible only for `buffer_size = 0`); `panicked` marks the
out-of-bounds slice `&bytes[counter..new_counter]` with
`new_counter > string_size`. -/
def sendMetaLoop (fileId bufferSize stringSize : Nat) (bytes : List Nat)
    (counter : Nat) : SendOutcome :=
  if _hc : counter < stringSize then
    let borrowSize := min bufferSize stringSize
    if _hz : borrowSize = 0 then ⟨[], .diverged⟩
    else
      let newCounter := counter + borrowSize
      if _hp : stringSize < newCounter then ⟨[], .panicked⟩
      else
        let chunk := (bytes.drop counter).take borrowSize
        let rest := sendMetaLoop fileId bufferSize stringSize bytes newCounter
        ⟨⟨fileId, true, decide (stringSize ≤ borrowSize), chunk⟩ :: rest.sent, rest.status⟩
  else ⟨[], .finished⟩
  termination_by stringSize - counter
  decreasing_by simp_all; omega

/-- `payload.rs::send_meta_string`: chunk the JSON metadata string. -/
def send_meta_string (fileId bufferSize : Nat) (bytes : List Nat) : SendOutcome :=
  sendMetaLoop fileId bufferSize bytes.length bytes 0

/-! ## `payload.rs::send_data` (data pass)

`file.read` into a `buffer_size` buffer is modelled as taking up to
`buffer_size` bytes of the remaining file contents (the reads-fill-the-
buffer assumption of the spec); `n = 0` is EOF and ends the loop. -/

def sendDataLoop (fileId fileSize bufferSize : Nat) (counter : Nat)
    (rest : List Nat) : List Packet :=
  let n := min bufferSize rest.length
  if _h : n = 0 then []
  else
    let counter2 := counter + n
    let chunk := rest.take bufferSize
    ⟨fileId, false, decide (fileSize ≤ counter2), chunk⟩ ::
      sendDataLoop fileId fileSize bufferSize counter2 (rest.drop bufferSize)
  termination_by rest.length
  decreasing_by simp_all; omega

/-- `payload.rs::send_data`: stream a file's contents as data packets
(`is_meta = false`, `is_last = (cumulative ≥ file_size)`). -/
def send_data (fileId fileSize bufferSize : Nat) (contents : List Nat) : List Packet :=
  sendDataLoop fileId fileSize bufferSize 0 contents

/-! ## Data-pass lemmas -/

lemma sendDataLoop_nil (fileId fileSize B counter : Nat) :
    sendDataLoop fileId fileSize B counter [] = [] := by
  rw [sendDataLoop]
  simp

lemma sendDataLoop_spec (fileId B fileSize : Nat) (hB : 0 < B) :
    ∀ n rest counter, rest.length = n → counter + rest.length = fileSize → rest ≠ [] →
      (sendDataLoop fileId fileSize B counter rest).length = (rest.length + B - 1) / B ∧
      (∀ p ∈ sendDataLoop fileId fileSize B counter rest,
        p.meta = false ∧ p.binary.length ≤ B) ∧
      ((sendDataLoop fileId fileSize B counter rest).map Packet.binary).flatten = rest ∧
      (sendDataLoop fileId fileSize B counter rest).map Packet.last =
        List.replicate ((sendDataLoop fileId fileSize B counter rest).length - 1) false
          ++ [true] := by
  intro n
  induction n using Nat.strong_induction_on with
  | _ n ih =>
    intro rest counter hlen hcount hne
    have hpos : 0 < rest.length := List.length_pos.mpr hne
    rw [sendDataLoop]
    by_cases hle : rest.length ≤ B
    · -- final chunk: the whole remainder fits in one read
      have hmin : min B rest.length = rest.length := by omega
      have htake : rest.take B = rest := List.take_of_length_le hle
      have hdrop : rest.drop B = [] := List.drop_eq_nil_of_le hle
      simp only [hmin, htake, hdrop, sendDataLoop_nil]
      rw [dif_neg (show ¬(rest.length = 0) by omega)]
      have hlast : decide (fileSize ≤ counter + rest.length) = true := by
        simp only [decide_eq_true_eq]; omega
      refine ⟨?_, ?_, ?_, ?_⟩
      · simp only [List.length_cons, List.length_nil]
        have h1 : (rest.length + B - 1) / B = 1 :=
          Nat.div_eq_of_lt_le (by omega) (by omega)
        omega
      · intro p hp
        simp only [List.mem_singleton] at hp
        subst hp
        refine ⟨rfl, ?_⟩
        simpa using hle
      · simp
      · simp [hlast]
    · -- a full buffer is read and the loop continues
      have hmin : min B rest.length = B := by omega
      have hdlen : (rest.drop B).length = rest.length - B := by simp
      have hrec := ih (rest.length - B) (by omega) (rest.drop B) (counter + B)
        (by omega) (by simp; omega) (by
          intro hnil
          have hnl := congrArg List.length hnil
          simp at hnl
          omega)
      obtain ⟨hrl, hrm, hrj, hrf⟩ := hrec
      simp only [hmin]
      rw [dif_neg (show ¬(B = 0) by omega)]
      have hlast : decide (fileSize ≤ counter + B) = false := by
        simp only [decide_eq_false_iff_not]; omega
      have hrl1 : 1 ≤ (sendDataLoop fileId fileSize B (counter + B) (rest.drop B)).length := by
        rw [hrl, hdlen]
        exact (Nat.le_div_iff_mul_le hB).mpr (by omega)
      refine ⟨?_, ?_, ?_, ?_⟩
      · simp only [List.length_cons, hrl, hdlen]
        have heq : rest.length + B - 1 = (rest.length - B + B - 1) + B := by omega
        rw [heq, Nat.add_div_right _ hB]
      · intro p hp
        simp only [List.mem_cons] at hp
        rcases hp with hp | hp
        · subst hp
          refine ⟨rfl, ?_⟩
          simp
        · exact hrm p hp
      · simp only [List.map_cons, List.flatten_cons, hrj]
        exact List.take_append_drop B rest
      · simp only [List.map_cons, hrf, hlast, List.length_cons]
        have hrep : (sendDataLoop fileId fileSize B (counter + B) (rest.drop B)).length
            + 1 - 1 = ((sendDataLoop fileId fileSize B (counter + B)
              (rest.drop B)).length - 1) + 1 := by omega
        rw [hrep, List.replicate_succ]
        simp

/-- C3: data-pass chunking — a regular file of size `N = contents.length > 0`
sent with chunk size `C > 13` (reads filling the buffer up to EOF) is
emitted as exactly `⌈N / (C − 13)⌉` data frames, all with `is_meta = false`
and payload at most `C − 13` bytes, whose payloads concatenate to the file
contents, and `is_last = true` exactly on the final frame. -/
theorem c3_data_pass_chunking (fileId chunkSize : Nat) (contents : List Nat)
    (hC : 13 < chunkSize) (hne : contents ≠ []) :
    (send_data fileId contents.length (chunkSize - 13) contents).length =
        (contents.length + (chunkSize - 13) - 1) / (chunkSize - 13) ∧
      (∀ p ∈ send_data fileId contents.length (chunkSize - 13) contents,
        p.meta = false ∧ p.binary.length ≤ chunkSize - 13) ∧
      ((send_data fileId contents.length (chunkSize - 13) contents).map
          Packet.binary).flatten = contents ∧
      (send_data fileId contents.length (chunkSize - 13) contents).map Packet.last =
        List.replicate
          ((send_data fileId contents.length (chunkSize - 13) contents).length - 1) false
          ++ [true] :=
  sendDataLoop_spec fileId (chunkSize - 13) contents.length (by omega)
    contents.length contents 0 rfl (by omega) hne

/-- Witness for C3: a 4-byte file with chunk size 16 (buffer 3) yields
⌈4/3⌉ = 2 frames. -/
theorem c3_data_pass_chunking_witness :
    (send_data 1 [5, 6, 7, 8].length (16 - 13) [5, 6, 7, 8]).length =
        ([5, 6, 7, 8].length + (16 - 13) - 1) / (16 - 13) ∧
      (∀ p ∈ send_data 1 [5, 6, 7, 8].length (16 - 13) [5, 6, 7, 8],
        p.meta = false ∧ p.binary.length ≤ 16 - 13) ∧
      ((send_data 1 [5, 6, 7, 8].length (16 - 13) [5, 6, 7, 8]).map
          Packet.binary).flatten = [5, 6, 7, 8] ∧
      (send_data 1 [5, 6, 7, 8].length (16 - 13) [5, 6, 7, 8]).map Packet.last =
        List.replicate
          ((send_data 1 [5, 6, 7, 8].length (16 - 13) [5, 6, 7, 8]).length - 1) false
          ++ [true] :=
  c3_data_pass_chunking 1 16 [5, 6, 7, 8] (by decide) (by decide)

/-- C2: metadata pass chunking fails in the multi-packet case.  With
buffer size 3: a 7-byte JSON panics (the slice `bytes[3..6]` succeeds but
`bytes[6..9]` is out of bounds); a 6-byte JSON (an exact multiple)
finishes but *no* chunk carries `is_last = true`; only the single-packet
case (JSON ≤ buffer) behaves as the claim states. -/
theorem c2_meta_pass_multi_chunk_failure :
    (send_meta_string 1 3 [97, 98, 99, 100, 101, 102, 103]).status = .panicked ∧
      (send_meta_string 1 3 [97, 98, 99, 100, 101, 102]).status = .finished ∧
      (∀ p ∈ (send_meta_string 1 3 [97, 98, 99, 100, 101, 102]).sent, p.last = false) ∧
      send_meta_string 1 3 [97, 98] = ⟨[⟨1, true, true, [97, 98]⟩], .finished⟩ := by
  refine ⟨?_, ?_, ?_, ?_⟩ <;> simp [send_meta_string, sendMetaLoop]

/-! ## Paths and `file_manager.rs::MetaData`

Rust `PathBuf`s are modelled as slash-separated character lists.
`fileName` models `std::path::Path::file_name` for the slash-normalised
paths this program produces: the last path component, skipping empty
components and `.`, and `none` when the path ends in `..` or has no
component. -/

/-- A path / string, as a character list. -/
abbrev Str : Type := List Char

/-- Split a path at `/` separators (keeping empty components). -/
def splitOnSlash : List Char → List (List Char)
  | [] => [[]]
  | c :: rest =>
    let r := splitOnSlash rest
    if c = '/' then [] :: r
    else
      match r with
      | h :: t => (c :: h) :: t
      | [] => [[c]]

/-- The components of a path (dropping empty and `.` components, as
`std::path::Components` does). -/
def pathComponents (p : Str) : List (List Char) :=
  (splitOnSlash p).filter (fun c => decide (c ≠ []) && decide (c ≠ ['.']))

/-- `std::path::Path::file_name`. -/
def fileName (p : Str) : Option Str :=
  match (pathComponents p).getLast? with
  | some c => if c = ['.', '.'] then none else some c
  | none => none

/-- Join components with `/`. -/
def joinSlash : List (List Char) → List Char
  | [] => []
  | [c] => c
  | c :: rest => c ++ '/' :: joinSlash rest

/-- `std::path::Path::strip_prefix` (component-wise prefix removal),
composed with the string form the receiver pushes onto the parent
component. -/
def strip_base (base p : Str) : Option Str :=
  let bc := pathComponents base
  let pc := pathComponents p
  if bc.isPrefixOf pc then some (joinSlash (pc.drop bc.length)) else none

/-- `std::path::Path::parent`: the path minus its final component
(`some ""` for a single relative component, `none` for the empty path). -/
def parentPath (p : Str) : Option Str :=
  if p = ([] : List Char) then none
  else
    match splitOnSlash p with
    | [] => none
    | [_] => some []
    | comps => some (joinSlash comps.dropLast)

/-- `file_manager.rs::MetaData`. -/
structure MetaData where
  is_dir : Bool
  path : Str
  base_path : Option Str
  name : Str
  extension : Str
  size : Nat
  progress_bytes : Nat
  deriving DecidableEq

/-- `file_manager.rs::MetaData::normalize_path`: replace every backslash
with a forward slash. -/
def normalize_path (p : Str) : Str :=
  p.map (fun c => if c = '\\' then '/' else c)

/-- `file_manager.rs::MetaData::new`: both `name` and `extension` are set
to the whole final path component (empty when the path has none). -/
def MetaData.new (path : Str) (size : Nat) (base_path : Option Str)
    (is_dir : Bool) : MetaData :=
  let p := normalize_path path
  match fileName p with
  | some s =>
    { is_dir := is_dir, path := p, base_path := base_path, name := s,
      extension := s, size := size, progress_bytes := 0 }
  | none =>
    { is_dir := is_dir, path := p, base_path := base_path, name := [],
      extension := [], size := size, progress_bytes := 0 }

/-- `file_manager.rs::MetaData::local_path`. -/
def MetaData.local_path (md : MetaData) : Option Str :=
  match md.base_path with
  | some bp =>
    match fileName bp with
    | some parent =>
      match strip_base bp md.path with
      | some stripped => some (parent ++ '/' :: stripped)
      | none => none
    | none => none
  | none => none

/-- `file_manager.rs::MetaData::get_path`. -/
def MetaData.get_path (md : MetaData) : Str :=
  match md.local_path with
  | some p => p
  | none => md.name

/-- `message.rs::append_part_ext`: append the `.part` extension. -/
def append_part_ext (p : Str) : Str :=
  p ++ ['.', 'p', 'a', 'r', 't']

/-! ## `message.rs::handle_message`, binary-frame branch

Filesystem and channel side effects become an explicit effect list; the
`serde_json` metadata parse and the `parent.exists()` filesystem probe
are parameters.  A `serde_json` failure propagates out of the handler as
an error (the Rust `?`), modelled by `Except.error`. -/

inductive Effect where
  | inputFileNew (id : Nat) (md : MetaData)
  | inputFileProgress (id : Nat) (progress : ℚ)
  | reportFileSpeed (id bytes : Nat)
  | sendFilePacketReceived (id bytes : Nat)
  | sendFileReceived (id : Nat)
  | appendFile (path : Str) (data : List Nat)
  | createFile (path : Str)
  | createDirAll (path : Str)
  | renamePart (path : Str)
  deriving DecidableEq

/-- Receiver state: assembled metadata and scratch metadata bytes, both
keyed by packet id (association lists standing for the two `HashMap`s). -/
structure RecvState where
  metadataMap : List (Nat × MetaData)
  metaBytesMap : List (Nat × List Nat)
  deriving DecidableEq

/-- `HashMap::get`. -/
def lookupA {κ α : Type} [DecidableEq κ] (m : List (κ × α)) (k : κ) : Option α :=
  match m.find? (fun kv => decide (kv.1 = k)) with
  | some kv => some kv.2
  | none => none

/-- `HashMap::insert` (replacing any previous binding). -/
def insertA {κ α : Type} [DecidableEq κ] (m : List (κ × α)) (k : κ) (v : α) :
    List (κ × α) :=
  (k, v) :: m.filter (fun kv => decide (kv.1 ≠ k))

/-- `HashMap::remove`. -/
def removeA {κ α : Type} [DecidableEq κ] (m : List (κ × α)) (k : κ) :
    List (κ × α) :=
  m.filter (fun kv => decide (kv.1 ≠ k))

/-- `message.rs::create_folder_structure`: `create_dir_all` for a
directory, otherwise for the (not yet existing, non-empty) parent. -/
def create_folder_structure (parentExists : Str → Bool) (md : MetaData) :
    List Effect :=
  if md.is_dir then [.createDirAll md.get_path]
  else
    match parentPath md.get_path with
    | some parent =>
      if !parentExists parent && decide (parent ≠ ([] : List Char)) then
        [.createDirAll parent]
      else []
    | none => []

/-- `message.rs::handle_message`, binary branch: accumulate or assemble
metadata for `is_meta` packets, append file data otherwise, and perform
the `is_last` completion work. -/
def handle_binary (parseMeta : List Nat → Option MetaData)
    (parentExists : Str → Bool) (p : Packet) (st : RecvState) :
    Except Unit (RecvState × List Effect) :=
  let phase1 : RecvState × List Effect :=
    if p.meta then
      match lookupA st.metadataMap p.id with
      | some _ => (st, [])
      | none =>
        match lookupA st.metaBytesMap p.id with
        | some bytes =>
          ({ st with metaBytesMap := insertA st.metaBytesMap p.id (bytes ++ p.binary) }, [])
        | none =>
          ({ st with metaBytesMap := insertA st.metaBytesMap p.id p.binary }, [])
    else
      match lookupA st.metadataMap p.id with
      | some md =>
        let md2 := { md with progress_bytes := md.progress_bytes + p.binary.length }
        ({ st with metadataMap := insertA st.metadataMap p.id md2 },
          [.appendFile (append_part_ext md2.get_path) p.binary,
            .inputFileProgress p.id ((md2.progress_bytes : ℚ) / (md2.size : ℚ)),
            .reportFileSpeed p.id p.binary.length,
            .sendFilePacketReceived p.id p.binary.length])
      | none => (st, [])
  let st1 := phase1.1
  let effs1 := phase1.2
  if p.last then
    if p.meta then
      match lookupA st1.metaBytesMap p.id with
      | some bytes =>
        match parseMeta bytes with
        | none => .error ()
        | some value =>
          let st2 := { st1 with metadataMap := insertA st1.metadataMap p.id value }
          let effs2 := create_folder_structure parentExists value
          let effs3 :=
            if !value.is_dir then
              if value.size > 0 then [.inputFileNew p.id value]
              else [.createFile value.get_path, .inputFileNew p.id value,
                .inputFileProgress p.id 1, .sendFileReceived p.id]
            else [.sendFileReceived p.id]
          .ok (st2, effs1 ++ effs2 ++ effs3)
      | none => .ok (st1, effs1)
    else
      match lookupA st1.metadataMap p.id with
      | some md => .ok (st1, effs1 ++ [.renamePart md.get_path, .sendFileReceived p.id])
      | none => .ok (st1, effs1 ++ [.sendFileReceived p.id])
  else .ok (st1, effs1)

/-- C4 counterexample: a data packet with `is_last = true` whose id has
no assembled metadata is *not* dropped entirely — the handler still sends
a `FileReceived` control message for it (the `send_message` at the end of
the non-meta `is_last` branch sits outside the metadata lookup). -/
theorem c4_counterexample_unknown_id_last_acks :
    handle_binary (fun _ => none) (fun _ => false) ⟨5, false, true, [1, 2, 3]⟩ ⟨[], []⟩ =
      .ok (⟨[], []⟩, [.sendFileReceived 5]) := by
  rfl

/-- C4 (amended): a duplicate meta packet with `is_last = false` is
ignored entirely; a data packet with unknown id performs no write and
emits no app event and is never fatal, but when `is_last = true` it still
sends a `FileReceived` control message; and (concretely) a duplicate meta
packet with `is_last = true` re-processes the retained scratch bytes,
re-emitting the assembly effects and control message. -/
theorem c4_out_of_protocol_packets (pm : List Nat → Option MetaData)
    (pe : Str → Bool) (p : Packet) (st : RecvState) :
    (p.meta = true → p.last = false → (lookupA st.metadataMap p.id).isSome = true →
      handle_binary pm pe p st = .ok (st, [])) ∧
    (p.meta = false → lookupA st.metadataMap p.id = none →
      handle_binary pm pe p st =
        .ok (st, if p.last then [.sendFileReceived p.id] else [])) ∧
    handle_binary (fun _ => some ⟨true, ['d'], none, ['d'], ['d'], 0, 0⟩)
        (fun _ => false) ⟨4, true, true, []⟩
        ⟨[(4, ⟨true, ['d'], none, ['d'], ['d'], 0, 0⟩)], [(4, [123])]⟩ =
      .ok (⟨[(4, ⟨true, ['d'], none, ['d'], ['d'], 0, 0⟩)], [(4, [123])]⟩,
        [.createDirAll ['d'], .sendFileReceived 4]) := by
  refine ⟨?_, ?_, ?_⟩
  · intro hm hl hsome
    match hmd : lookupA st.metadataMap p.id with
    | none => rw [hmd] at hsome; simp at hsome
    | some md => simp [handle_binary, hm, hl, hmd]
  · intro hm hnone
    cases hl : p.last <;> simp [handle_binary, hm, hnone, hl]
  · rfl

/-- Witness for C4 at concrete packets: a duplicate meta packet with
`is_last = false` leaves the state unchanged and emits nothing, and an
unknown-id data packet with `is_last = false` is dropped entirely. -/
theorem c4_out_of_protocol_packets_witness :
    (handle_binary (fun _ => none) (fun _ => false) ⟨2, true, false, [9]⟩
        ⟨[(2, ⟨false, ['f'], none, ['f'], ['f'], 3, 0⟩)], []⟩ =
      .ok (⟨[(2, ⟨false, ['f'], none, ['f'], ['f'], 3, 0⟩)], []⟩, [])) ∧
    (handle_binary (fun _ => none) (fun _ => false) ⟨3, false, false, [9]⟩ ⟨[], []⟩ =
      .ok (⟨[], []⟩, [])) :=
  ⟨((c4_out_of_protocol_packets (fun _ => none) (fun _ => false) ⟨2, true, false, [9]⟩
      ⟨[(2, ⟨false, ['f'], none, ['f'], ['f'], 3, 0⟩)], []⟩).1 rfl rfl (by decide)),
    by
      have h := (c4_out_of_protocol_packets (fun _ => none) (fun _ => false)
        ⟨3, false, false, [9]⟩ ⟨[], []⟩).2.1 rfl (by decide)
      simpa using h⟩

/-- C10: `MetaData::new` assigns the *entire* final path component to the
`extension` field — always identical to `name` — rather than the
extension suffix: for `dir/file.tar.gz` both fields are `file.tar.gz`,
and for an extensionless file the extension is the whole file name. -/
theorem c10_extension_is_whole_file_name (path : Str) (size : Nat)
    (bp : Option Str) (d : Bool) :
    (MetaData.new path size bp d).extension = (MetaData.new path size bp d).name ∧
      (MetaData.new "dir/file.tar.gz".data 5 none false).name = "file.tar.gz".data ∧
      (MetaData.new "dir/file.tar.gz".data 5 none false).extension = "file.tar.gz".data ∧
      (MetaData.new "noext".data 1 none false).extension = "noext".data := by
  refine ⟨?_, by decide, by decide, by decide⟩
  rcases h : fileName (normalize_path path) with _ | s <;> simp [MetaData.new, h]

/-! ## `signaling/negotiator.rs`: UUID handling

`Uuid` is its 16-byte array; the derived Rust `Ord` on `uuid::Uuid`
compares those bytes lexicographically.  The `webrtc` peer connection is
abstracted to the SDP string that `local_description` reports after
`create_offer` / `set_local_description` / ICE completion. -/

abbrev Uuid : Type := List Nat

/-- `Uuid::nil()`. -/
def uuidNil : Uuid := List.replicate 16 0

/-- `negotiator.rs::UuidExt::full`: the all-Fs UUID. -/
def uuidFull : Uuid := List.replicate 16 255

/-- Lexicographic byte comparison (the derived `Ord` of `uuid::Uuid` on
its big-endian byte array). -/
def bytesLt : List Nat → List Nat → Bool
  | [], [] => false
  | [], _ :: _ => true
  | _ :: _, [] => false
  | a :: as, b :: bs =>
    if a < b then true else if b < a then false else bytesLt as bs

/-- `negotiator.rs::UuidExt::exclude_edge_cases`: the RNG is modelled as
a candidate stream; the Rust loop returns the first candidate that is
neither nil nor all-Fs (and spins forever on a stream with no such
candidate — surfaced as `none` here, see `handle_uuid`). -/
def exclude_edge_cases (candidates : List Uuid) : Option Uuid :=
  candidates.find? (fun u => decide (u ≠ uuidNil) && decide (u ≠ uuidFull))

inductive HandshakeState where
  | Initial
  | ConnectingToServer
  | ConnectedToServer
  | UUIDSent
  | UUIDReceived
  | OfferSent
  | OfferReceived
  | AnswerSent
  | AnswerReceived
  | ExchangeFinished
  deriving DecidableEq

inductive SignalingMessage where
  | Uuid (u : Uuid)
  | Offer (sdp : String)
  | Answer (sdp : String)
  deriving DecidableEq

/-- An observable action of `handle_uuid`: a handshake-state event to the
UI or a message sent on the signaling transport. -/
inductive NegAction where
  | event (s : HandshakeState)
  | send (m : SignalingMessage)
  deriving DecidableEq

inductive NegError where
  | uuidClash
  | generatorExhausted
  deriving DecidableEq

instance {ε α : Type} [DecidableEq ε] [DecidableEq α] :
    DecidableEq (Except ε α) := fun a b =>
  match a, b with
  | .error e1, .error e2 =>
    if h : e1 = e2 then isTrue (by rw [h]) else isFalse (by intro hc; cases hc; exact h rfl)
  | .ok v1, .ok v2 =>
    if h : v1 = v2 then isTrue (by rw [h]) else isFalse (by intro hc; cases hc; exact h rfl)
  | .error _, .ok _ => isFalse (by intro hc; cases hc)
  | .ok _, .error _ => isFalse (by intro hc; cases hc)

structure UuidOutcome where
  actions : List NegAction
  result : Except NegError Uuid
  deriving DecidableEq

/-- `negotiator.rs::Negotiator::handle_uuid`: emit `UUIDReceived`; on a
clash either re-roll and re-send the UUID (`handle_same_uuid = true`) or
fail with the UUID-clash error; otherwise `polite = (local < remote)`,
and only the impolite side creates and sends an offer (after
`set_local_description` the `local_description()` of the peer connection
is the created offer, here `offerSdp`). -/
def handle_uuid (localUuid : Uuid) (handleSame : Bool) (candidates : List Uuid)
    (offerSdp : String) (remote : Uuid) : UuidOutcome :=
  if localUuid = remote then
    if handleSame then
      match exclude_edge_cases candidates with
      | some newU => ⟨[.event .UUIDReceived, .send (.Uuid newU)], .ok newU⟩
      | none => ⟨[.event .UUIDReceived], .error .generatorExhausted⟩
    else ⟨[.event .UUIDReceived], .error .uuidClash⟩
  else
    if bytesLt localUuid remote then ⟨[.event .UUIDReceived], .ok localUuid⟩
    else ⟨[.event .UUIDReceived, .send (.Offer offerSdp), .event .OfferSent],
      .ok localUuid⟩

lemma bytesLt_antisymm : ∀ a b : List Nat, a.length = b.length → a ≠ b →
    bytesLt a b = !(bytesLt b a) := by
  intro a
  induction a with
  | nil =>
    intro b hl hne
    cases b with
    | nil => exact absurd rfl hne
    | cons y ys => simp at hl
  | cons x xs ih =>
    intro b hl hne
    cases b with
    | nil => simp at hl
    | cons y ys =>
      simp only [bytesLt]
      rcases Nat.lt_trichotomy x y with h | h | h
      · rw [if_pos h, if_neg (by omega), if_pos h]
        rfl
      · subst h
        rw [if_neg (by omega), if_neg (by omega), if_neg (by omega), if_neg (by omega)]
        have hxs : xs ≠ ys := by
          intro hcon
          exact hne (by rw [hcon])
        exact ih ys (by simpa using hl) hxs
      · rw [if_neg (by omega), if_pos h, if_pos h]
        rfl

/-- C5: negotiator UUID handling — on `remote = local` with
`handle_same_uuid = false` the negotiator fails with the UUID-clash
error; with `handle_same_uuid = true` it picks a fresh UUID that is
neither nil nor all-Fs and re-sends it; on distinct UUIDs
`polite = (local < remote)` in byte order, the polite side sends nothing
and the impolite side sends the offer, and of two distinct 16-byte UUIDs
exactly one side is impolite. -/
theorem c5_negotiator_uuid_handling (a b newU : Uuid) (cs : List Uuid)
    (offer : String) (hs : Bool) :
    (handle_uuid a false cs offer a =
      ⟨[.event .UUIDReceived], .error .uuidClash⟩) ∧
    (exclude_edge_cases cs = some newU →
      handle_uuid a true cs offer a =
          ⟨[.event .UUIDReceived, .send (.Uuid newU)], .ok newU⟩ ∧
        newU ≠ uuidNil ∧ newU ≠ uuidFull) ∧
    (a ≠ b →
      (bytesLt a b = true →
        handle_uuid a hs cs offer b = ⟨[.event .UUIDReceived], .ok a⟩) ∧
      (bytesLt a b = false →
        handle_uuid a hs cs offer b =
          ⟨[.event .UUIDReceived, .send (.Offer offer), .event .OfferSent], .ok a⟩)) ∧
    (a.length = 16 → b.length = 16 → a ≠ b →
      (bytesLt a b = true ↔ bytesLt b a = false)) := by
  refine ⟨?_, ?_, ?_, ?_⟩
  · simp [handle_uuid]
  · intro hfind
    have hpred := List.find?_some hfind
    simp only [Bool.and_eq_true, decide_eq_true_eq] at hpred
    refine ⟨?_, hpred.1, hpred.2⟩
    simp [handle_uuid, exclude_edge_cases] at hfind ⊢
    rw [hfind]
  · intro hne
    constructor
    · intro hlt
      simp [handle_uuid, hne, hlt]
    · intro hlt
      simp [handle_uuid, hne, hlt]
  · intro ha hb hne
    have h := bytesLt_antisymm a b (by omega) hne
    rw [h]
    cases bytesLt b a <;> simp

/-- Witness for C5 at concrete UUIDs. -/
theorem c5_negotiator_uuid_handling_witness :
    (handle_uuid (List.replicate 15 0 ++ [1]) false [] "s" (List.replicate 15 0 ++ [1]) =
      ⟨[.event .UUIDReceived], .error .uuidClash⟩) ∧
    (handle_uuid (List.replicate 15 0 ++ [1]) true [List.replicate 15 0 ++ [7]] "s"
          (List.replicate 15 0 ++ [1]) =
        ⟨[.event .UUIDReceived, .send (.Uuid (List.replicate 15 0 ++ [7]))],
          .ok (List.replicate 15 0 ++ [7])⟩ ∧
      (List.replicate 15 0 ++ [7] : Uuid) ≠ uuidNil ∧
      (List.replicate 15 0 ++ [7] : Uuid) ≠ uuidFull) ∧
    (bytesLt (List.replicate 15 0 ++ [1]) (List.replicate 15 0 ++ [2]) = true →
      handle_uuid (List.replicate 15 0 ++ [1]) false [] "s" (List.replicate 15 0 ++ [2]) =
        ⟨[.event .UUIDReceived], .ok (List.replicate 15 0 ++ [1])⟩) ∧
    (bytesLt (List.replicate 15 0 ++ [1]) (List.replicate 15 0 ++ [2]) = true ↔
      bytesLt (List.replicate 15 0 ++ [2]) (List.replicate 15 0 ++ [1]) = false) := by
  have h := c5_negotiator_uuid_handling (List.replicate 15 0 ++ [1])
    (List.replicate 15 0 ++ [2]) (List.replicate 15 0 ++ [7])
    [List.replicate 15 0 ++ [7]] "s" false
  exact ⟨h.1, h.2.1 (by decide), (h.2.2.1 (by decide)).1,
    h.2.2.2 (by decide) (by decide) (by decide)⟩

/-! ## `server/signal.rs` + `server/types.rs`: rendezvous server

Rooms are keyed by room id; a room's user set is its list of user ids
(the petname, send-channel and history do not bear on the lifecycle
claims and `petname::petname(2, "-")` is modelled as total).  `join_room`
and `disconnect` are the two operations that touch the room registry;
mutex serialisation makes each an atomic step. -/

structure Room where
  users : List Nat
  capacity : Nat
  deriving DecidableEq

/-- `types.rs::Room::new`: a fresh room with capacity 2. -/
def Room.new : Room := ⟨[], 2⟩

structure ServerState where
  rooms : List (String × Room)
  nextUid : Nat
  deriving DecidableEq

inductive SrvEvent where
  | addRoom (rid : String)
  | addRoomUser (rid : String) (uid : Nat)
  | removeRoomUser (uid : Nat)
  | removeRoom (rid : String)
  deriving DecidableEq

/-- `signal.rs::join_room` (plus the `AddRoomUser` event `connect` emits
when a user was created): create the room if absent, and add a new user
(ids from the atomic counter, starting at 1) unless the user count has
reached the room's capacity. -/
def join_room (st : ServerState) (rid : String) :
    ServerState × Option Nat × List SrvEvent :=
  match lookupA st.rooms rid with
  | some room =>
    if room.users.length < room.capacity then
      let uid := st.nextUid
      (⟨insertA st.rooms rid { room with users := room.users ++ [uid] }, uid + 1⟩,
        some uid, [.addRoomUser rid uid])
    else (st, none, [])
  | none =>
    let room := Room.new
    if room.users.length < room.capacity then
      let uid := st.nextUid
      (⟨insertA st.rooms rid { room with users := [uid] }, uid + 1⟩,
        some uid, [.addRoom rid, .addRoomUser rid uid])
    else (⟨insertA st.rooms rid room, st.nextUid⟩, none, [.addRoom rid])

/-- `signal.rs::disconnect`: remove the user from its room; if the room
is now empty, remove the room from the registry. -/
def disconnect (st : ServerState) (uid : Nat) (rid : String) :
    ServerState × List SrvEvent :=
  match lookupA st.rooms rid with
  | some room =>
    let users2 := room.users.filter (fun u => decide (u ≠ uid))
    if users2.isEmpty then
      (⟨removeA st.rooms rid, st.nextUid⟩, [.removeRoomUser uid, .removeRoom rid])
    else
      (⟨insertA st.rooms rid { room with users := users2 }, st.nextUid⟩,
        [.removeRoomUser uid])
  | none => (st, [])

/-- The server states reachable from startup (no rooms, user counter 1)
by joins and disconnects. -/
inductive Reachable : ServerState → Prop where
  | init : Reachable ⟨[], 1⟩
  | join (rid : String) {s : ServerState} : Reachable s → Reachable (join_room s rid).1
  | disc (uid : Nat) (rid : String) {s : ServerState} :
      Reachable s → Reachable (disconnect s uid rid).1

lemma mem_insertA {κ α : Type} [DecidableEq κ] {m : List (κ × α)} {k0 : κ}
    {v0 : α} {kv : κ × α} (h : kv ∈ insertA m k0 v0) :
    kv = (k0, v0) ∨ (kv ∈ m ∧ kv.1 ≠ k0) := by
  simp only [insertA, List.mem_cons, List.mem_filter, decide_eq_true_eq] at h
  tauto

lemma lookupA_mem {κ α : Type} [DecidableEq κ] {m : List (κ × α)} {k : κ} {v : α}
    (h : lookupA m k = some v) : (k, v) ∈ m := by
  simp only [lookupA] at h
  rcases hf : m.find? (fun kv => decide (kv.1 = k)) with _ | kv
  · rw [hf] at h; simp at h
  · rw [hf] at h
    simp only [Option.some.injEq] at h
    have hm := List.mem_of_find?_eq_some hf
    have hp := List.find?_some hf
    simp only [decide_eq_true_eq] at hp
    rw [← h, ← hp]
    exact hm

lemma lookupA_removeA {κ α : Type} [DecidableEq κ] (m : List (κ × α)) (k : κ) :
    lookupA (removeA m k) k = none := by
  simp only [lookupA, removeA]
  have hnone : (m.filter (fun kv => decide (kv.1 ≠ k))).find?
      (fun kv => decide (kv.1 = k)) = none := by
    rw [List.find?_eq_none]
    intro x hx
    simp only [List.mem_filter, decide_eq_true_eq] at hx
    simp only [decide_eq_true_eq]
    exact hx.2
  rw [hnone]

/-- The lifecycle invariant: every registered room has capacity 2 and
between 1 and 2 users. -/
def roomInv (s : ServerState) : Prop :=
  ∀ kv ∈ s.rooms, kv.2.capacity = 2 ∧ 1 ≤ kv.2.users.length ∧ kv.2.users.length ≤ 2

lemma reachable_roomInv {s : ServerState} (h : Reachable s) : roomInv s := by
  induction h with
  | init => intro kv hkv; simp at hkv
  | @join rid s hs ih =>
    intro kv hkv
    revert hkv
    unfold join_room
    rcases hl : lookupA s.rooms rid with _ | room
    · dsimp only
      rw [if_pos (by decide)]
      intro hkv
      rcases mem_insertA hkv with hkv | hkv
      · subst hkv; simp [Room.new]
      · exact ih kv hkv.1
    · dsimp only
      have hroom := ih _ (lookupA_mem hl)
      by_cases hcap : room.users.length < room.capacity
      · rw [if_pos hcap]
        intro hkv
        rcases mem_insertA hkv with hkv | hkv
        · subst hkv
          simp only at hroom
          refine ⟨hroom.1, by simp, ?_⟩
          simp
          omega
        · exact ih kv hkv.1
      · rw [if_neg hcap]
        intro hkv
        exact ih kv hkv
  | @disc uid rid s hs ih =>
    intro kv hkv
    revert hkv
    unfold disconnect
    rcases hl : lookupA s.rooms rid with _ | room
    · intro hkv; exact ih kv hkv
    · dsimp only
      have hroom := ih _ (lookupA_mem hl)
      simp only at hroom
      by_cases hemp : (room.users.filter (fun u => decide (u ≠ uid))).isEmpty
      · rw [if_pos hemp]
        intro hkv
        simp only [removeA, List.mem_filter] at hkv
        exact ih kv hkv.1
      · rw [if_neg hemp]
        intro hkv
        rcases mem_insertA hkv with hkv | hkv
        · subst hkv
          have hle := List.length_filter_le (fun u => decide (u ≠ uid)) room.users
          have hne : (room.users.filter (fun u => decide (u ≠ uid))).length ≠ 0 := by
            intro hc
            exact hemp (by simpa [List.isEmpty_iff_length_eq_zero] using hc)
          refine ⟨hroom.1, ?_, ?_⟩ <;> dsimp only <;> omega
        · exact ih kv hkv.1

/-- C7: room capacity and lifecycle — in every reachable server state
every room holds between 1 and 2 users (so at most 2, and a zero-user
room never persists); a join on a full room changes nothing, creates no
user and emits no event; and a disconnect that empties a room removes
the room from the registry. -/
theorem c7_room_capacity_lifecycle (s : ServerState) (rid : String) (uid : Nat)
    (room : Room) :
    (Reachable s →
      ∀ kv ∈ s.rooms, 1 ≤ kv.2.users.length ∧ kv.2.users.length ≤ 2) ∧
    (lookupA s.rooms rid = some room → room.users.length = room.capacity →
      join_room s rid = (s, none, [])) ∧
    (lookupA s.rooms rid = some room →
      room.users.filter (fun u => decide (u ≠ uid)) = [] →
      lookupA (disconnect s uid rid).1.rooms rid = none) := by
  refine ⟨?_, ?_, ?_⟩
  · intro hr kv hkv
    exact (reachable_roomInv hr kv hkv).2
  · intro hl hfull
    unfold join_room
    rw [hl]
    simp only []
    rw [if_neg (by omega)]
  · intro hl hempty
    unfold disconnect
    rw [hl]
    simp only [hempty]
    rw [if_pos (by simp)]
    exact lookupA_removeA s.rooms rid

/-- Witness for C7: after one join, the reachable state `{room "a" with
user 1}` satisfies the bounds; a second user fits, a third join is
refused; removing both users deletes the room. -/
theorem c7_room_capacity_lifecycle_witness :
    (∀ kv ∈ (⟨[("a", ⟨[1, 2], 2⟩)], 3⟩ : ServerState).rooms,
      1 ≤ kv.2.users.length ∧ kv.2.users.length ≤ 2) ∧
    join_room ⟨[("a", ⟨[1, 2], 2⟩)], 3⟩ "a" = (⟨[("a", ⟨[1, 2], 2⟩)], 3⟩, none, []) ∧
    lookupA (disconnect ⟨[("a", ⟨[2], 2⟩)], 3⟩ 2 "a").1.rooms "a" = none := by
  have h := c7_room_capacity_lifecycle ⟨[("a", ⟨[1, 2], 2⟩)], 3⟩ "a" 2 ⟨[1, 2], 2⟩
  have h2 := c7_room_capacity_lifecycle ⟨[("a", ⟨[2], 2⟩)], 3⟩ "a" 2 ⟨[2], 2⟩
  refine ⟨?_, h.2.1 (by decide) (by decide), h2.2.2 (by decide) (by decide)⟩
  have hreach : Reachable ⟨[("a", ⟨[1, 2], 2⟩)], 3⟩ := by
    have s1 := Reachable.join "a" Reachable.init
    have s2 := Reachable.join "a" s1
    simpa [join_room, lookupA, insertA, Room.new] using s2
  exact h.1 hreach

/-! ## `server/signal.rs::main`: the `/room` route

The route handler returns the WebSocket upgrade when the `room` query
parameter is present and `warp::reject::custom(Forbidden)` otherwise.
`signal.rs` installs no `recover` filter, and warp's documented default
rejection handling replies *500 Internal Server Error* to a custom
rejection it does not know. -/

inductive Rejection where
  | customForbidden
  deriving DecidableEq

inductive RouteReply where
  | upgrade (roomId : String)
  | reject (r : Rejection)
  deriving DecidableEq

/-- The `and_then` closure of `signal.rs::main` on the parsed query map. -/
def room_route (query : List (String × String)) : RouteReply :=
  match lookupA query "room" with
  | some rid => .upgrade rid
  | none => .reject .customForbidden

/-- Warp's default translation of an unrecovered reply to an HTTP status:
101 for the accepted upgrade, 500 for an unhandled custom rejection. -/
def warp_reply_status : RouteReply → Nat
  | .upgrade _ => 101
  | .reject .customForbidden => 500

/-- C8: a `GET /room` request without the `room` query parameter is
refused with warp's *500 Internal Server Error* (the custom `Forbidden`
rejection is never recovered into a 403) and no WebSocket upgrade is
performed; with the parameter present the socket is upgraded. -/
theorem c8_missing_room_param_is_500_not_403 :
    room_route [] = .reject .customForbidden ∧
      warp_reply_status (room_route []) = 500 ∧
      warp_reply_status (room_route []) ≠ 403 ∧
      room_route [("other", "x")] = .reject .customForbidden ∧
      room_route [("room", "abc")] = .upgrade "abc" := by
  refine ⟨rfl, rfl, by decide, ?_, ?_⟩ <;> rfl

/-! ## `file_manager.rs::SpeedCounter`

Timestamps are exact rationals (seconds); the `f64` arithmetic of
`get_speed` is carried out in `ℚ`.  Note the byte sum of `get_speed`
runs over indices `1..len`, skipping the first report of the window. -/

structure SpeedReport where
  file_id : Nat
  timestamp : ℚ
  bytes : Nat
  deriving DecidableEq

structure SpeedCounter where
  report_buffer : List SpeedReport
  deriving DecidableEq

/-- `SpeedCounter::CAPACITY`. -/
def SpeedCounter.CAPACITY : Nat := 10

/-- `SpeedCounter::add_report`: evict the oldest report when the window
is full, then push the new one. -/
def add_report (c : SpeedCounter) (r : SpeedReport) : SpeedCounter :=
  let b := if c.report_buffer.length = SpeedCounter.CAPACITY then
    c.report_buffer.drop 1 else c.report_buffer
  ⟨b ++ [r]⟩

/-- `SpeedCounter::get_speed`: `None` with fewer than 2 reports,
otherwise `(Σ_{i=1..len-1} bytes_i) × 8 / 1 000 000 / (t_last − t_first)`
— the loop `for i in 1..len` starts at index 1. -/
def get_speed (c : SpeedCounter) : Option ℚ :=
  if 1 < c.report_buffer.length then
    match c.report_buffer with
    | [] => none
    | r0 :: rest =>
      let tEnd := (rest.getLastD r0).timestamp
      let duration := tEnd - r0.timestamp
      let byteSum : ℚ := (rest.map (fun r => (r.bytes : ℚ))).sum
      let megabits := byteSum * 8 / 1000000
      some (megabits / duration)
  else none

/-- C9 counterexample: with the window `[{bytes 100, t 0}, {bytes 50,
t 1}]` the code returns `50 × 8 / 10⁶ / 1 = 1/2500` Mbps — the byte sum
skips the first report — whereas the claimed whole-window formula gives
`150 × 8 / 10⁶ / 1 = 3/2500`. -/
theorem c9_counterexample_first_report_bytes_skipped :
    get_speed ⟨[⟨1, 0, 100⟩, ⟨1, 1, 50⟩]⟩ = some (1 / 2500) ∧
      ¬((1 : ℚ) / 2500 = (((100 : ℚ) + 50) * 8 / 1000000) / (1 - 0)) := by
  constructor
  · norm_num [get_speed]
  · norm_num

lemma add_report_capacity (c : SpeedCounter) (r : SpeedReport)
    (h : c.report_buffer.length ≤ 10) :
    (add_report c r).report_buffer.length ≤ 10 := by
  simp only [add_report, SpeedCounter.CAPACITY]
  by_cases h10 : c.report_buffer.length = 10
  · rw [if_pos h10]; simp; omega
  · rw [if_neg h10]; simp; omega

/-- C9 (amended): the window never exceeds 10 reports and a full window
evicts its oldest report first; with fewer than 2 reports the speed is
undefined; with at least 2 reports and increasing timestamps the speed
is `(Σ bytes over the window *excluding the first report*) × 8 / 10⁶ /
(t_last − t_first)` Mbps, a non-negative value. -/
theorem c9_speed_counter (reports : List SpeedReport) (c c10 : SpeedCounter)
    (r : SpeedReport) (r0 : SpeedReport) (rest : List SpeedReport) :
    (reports.foldl add_report ⟨[]⟩).report_buffer.length ≤ 10 ∧
      (c10.report_buffer.length = 10 →
        (add_report c10 r).report_buffer = c10.report_buffer.drop 1 ++ [r]) ∧
      (c.report_buffer.length ≤ 1 → get_speed c = none) ∧
      (rest ≠ [] → r0.timestamp < (rest.getLastD r0).timestamp →
        get_speed ⟨r0 :: rest⟩ =
            some (((rest.map (fun r => (r.bytes : ℚ))).sum * 8 / 1000000) /
              ((rest.getLastD r0).timestamp - r0.timestamp)) ∧
          0 ≤ ((rest.map (fun r => (r.bytes : ℚ))).sum * 8 / 1000000) /
              ((rest.getLastD r0).timestamp - r0.timestamp)) := by
  refine ⟨?_, ?_, ?_, ?_⟩
  · have hgen : ∀ (rs : List SpeedReport) (c0 : SpeedCounter),
        c0.report_buffer.length ≤ 10 →
        (rs.foldl add_report c0).report_buffer.length ≤ 10 := by
      intro rs
      induction rs with
      | nil => intro c0 h; simpa using h
      | cons r rs ih =>
        intro c0 h
        exact ih (add_report c0 r) (add_report_capacity c0 r h)
    exact hgen reports ⟨[]⟩ (by simp)
  · intro h10
    simp only [add_report, SpeedCounter.CAPACITY]
    rw [if_pos h10]
  · intro hle
    simp only [get_speed]
    rw [if_neg (by omega)]
  · intro hne hlt
    have hlen : 1 < (⟨r0 :: rest⟩ : SpeedCounter).report_buffer.length := by
      simp only [List.length_cons]
      have := List.length_pos.mpr hne
      omega
    constructor
    · simp only [get_speed]
      rw [if_pos hlen]
    · apply div_nonneg
      · apply div_nonneg
        · apply mul_nonneg
          · apply List.sum_nonneg
            intro x hx
            simp only [List.mem_map] at hx
            obtain ⟨r, _, hr⟩ := hx
            rw [← hr]
            positivity
          · norm_num
        · norm_num
      · linarith

/-- Witness for C9 at a concrete window. -/
theorem c9_speed_counter_witness :
    (([⟨1, 0, 100⟩, ⟨1, 1, 50⟩] : List SpeedReport).foldl add_report
        ⟨[]⟩).report_buffer.length ≤ 10 ∧
      ((⟨List.replicate 10 ⟨1, 0, 0⟩⟩ : SpeedCounter).report_buffer.length = 10 →
        (add_report ⟨List.replicate 10 ⟨1, 0, 0⟩⟩ ⟨1, 2, 3⟩).report_buffer =
          (⟨List.replicate 10 ⟨1, 0, 0⟩⟩ : SpeedCounter).report_buffer.drop 1 ++
            [⟨1, 2, 3⟩]) ∧
      ((⟨[⟨1, 0, 100⟩]⟩ : SpeedCounter).report_buffer.length ≤ 1 →
        get_speed ⟨[⟨1, 0, 100⟩]⟩ = none) ∧
      (([⟨1, 1, 50⟩] : List SpeedReport) ≠ [] →
        (⟨1, 0, 100⟩ : SpeedReport).timestamp <
          (([⟨1, 1, 50⟩] : List SpeedReport).getLastD ⟨1, 0, 100⟩).timestamp →
        get_speed ⟨[⟨1, 0, 100⟩, ⟨1, 1, 50⟩]⟩ =
            some ((([⟨1, 1, 50⟩] : List SpeedReport).map
                (fun r => (r.bytes : ℚ))).sum * 8 / 1000000 /
              ((([⟨1, 1, 50⟩] : List SpeedReport).getLastD ⟨1, 0, 100⟩).timestamp -
                (⟨1, 0, 100⟩ : SpeedReport).timestamp)) ∧
          0 ≤ (([⟨1, 1, 50⟩] : List SpeedReport).map
                (fun r => (r.bytes : ℚ))).sum * 8 / 1000000 /
              ((([⟨1, 1, 50⟩] : List SpeedReport).getLastD ⟨1, 0, 100⟩).timestamp -
                (⟨1, 0, 100⟩ : SpeedReport).timestamp)) :=
  c9_speed_counter [⟨1, 0, 100⟩, ⟨1, 1, 50⟩] ⟨[⟨1, 0, 100⟩]⟩
    ⟨List.replicate 10 ⟨1, 0, 0⟩⟩ ⟨1, 2, 3⟩ ⟨1, 0, 100⟩ [⟨1, 1, 50⟩]

end Tappi
